import Mathlib

/-!
Verification development for the interactive graph editor
(`src/scripts/drawer/graph.py`, `popup.py`, `text_input.py`).

The Python program is shallowly embedded below.  Machine floats are
modelled by `ℚ` inside the executable state machine (with the geometric
threshold test expressed in its squared, decidable form and proved
equivalent to the real-valued formula of the source), and by `ℝ` in the
real-valued geometry (`point_line_distance`).  Python exceptions that
escape a handler are modelled by `Option`/result flags, as noted at each
definition.  pygame / networkx behaviour that the source relies on
(`Rect.collidepoint`, `add_edge` creating missing endpoints,
`to_directed` / `to_undirected`) is embedded following their documented
semantics.
-/

namespace GraphEditor

/-- A graph key: editor-created nodes use the integer counter (`num`),
imported ids and labels may also be strings.  (JSON numbers are kept as
rationals.) -/
inductive Ident where
  | num (q : ℚ)
  | str (s : String)
deriving DecidableEq

/-- A screen position.  Every on-screen coordinate the program handles
is an integer: pygame event positions and rectangle coordinates are
ints, and imported layout positions are forced through `int()`. -/
abbrev Pos : Type := ℤ × ℤ

/-- An abstract layout coordinate produced by `nx.spring_layout`
(floating point, modelled as ℚ). -/
abbrev LPos : Type := ℚ × ℚ

/-- Per-node attribute dictionary: `pos` is absent until assigned
(nodes created by `add_edge` or by import, before layout, have none),
`label` is set only by the label popup. -/
structure NodeData where
  pos : Option Pos
  label : Option Ident
deriving DecidableEq

/-- One stored edge: endpoints in stored orientation plus the optional
`weight` attribute (`G.add_edge(u, v)` without attributes stores none). -/
structure EdgeData where
  src : Ident
  dst : Ident
  weight : Option ℚ
deriving DecidableEq

/-- The networkx graph owned by the drawer: `directed` mirrors both
`self.is_directed` and the `Graph`/`DiGraph` class (the source keeps the
two in sync at every assignment); nodes and edges in insertion order. -/
structure GraphState where
  directed : Bool
  nodes : List (Ident × NodeData)
  edges : List EdgeData
deriving DecidableEq

namespace GraphState

/-- The node ids currently present. -/
def nodeIds (G : GraphState) : List Ident := G.nodes.map (·.1)

/-- `node in G` test. -/
def hasNode (G : GraphState) (i : Ident) : Bool := G.nodes.any (·.1 = i)

/-- `self.G.nodes[i]['pos']`: `none` when the node is absent or the node
has no `pos` attribute (both raise `KeyError` in Python). -/
def nodePos (G : GraphState) (i : Ident) : Option Pos :=
  match G.nodes.find? (·.1 = i) with
  | some nd => nd.2.pos
  | none => none

/-- `G.add_node(i)` with no attributes: inserts a fresh attribute-less
node, keeps an existing node untouched. -/
def ensureNode (G : GraphState) (i : Ident) : GraphState :=
  if G.hasNode i then G else { G with nodes := G.nodes ++ [(i, ⟨none, none⟩)] }

/-- `G.add_node(i, pos=p)`: inserts, or updates `pos` of an existing node. -/
def addNodeWithPos (G : GraphState) (i : Ident) (p : Pos) : GraphState :=
  if G.hasNode i then
    { G with nodes := G.nodes.map fun nd => if nd.1 = i then (nd.1, { nd.2 with pos := some p }) else nd }
  else
    { G with nodes := G.nodes ++ [(i, ⟨some p, none⟩)] }

/-- `self.G.nodes[i]['pos'] = p` on a present node (the source only
reaches this with `i` present; an absent `i` would raise `KeyError`,
which callers model separately). -/
def setPos (G : GraphState) (i : Ident) (p : Pos) : GraphState :=
  { G with nodes := G.nodes.map fun nd => if nd.1 = i then (nd.1, { nd.2 with pos := some p }) else nd }

/-- `graph.nodes[i]['label'] = l` (reached by the popup only while the
node is still present, so the absent case is a no-op here). -/
def setLabel (G : GraphState) (i : Ident) (l : Ident) : GraphState :=
  { G with nodes := G.nodes.map fun nd => if nd.1 = i then (nd.1, { nd.2 with label := some l }) else nd }

/-- Whether a stored edge holds the (possibly unordered) pair `u,v`. -/
def matchesEdge (directed : Bool) (u v : Ident) (e : EdgeData) : Bool :=
  (e.src = u && e.dst = v) || (!directed && e.src = v && e.dst = u)

def hasEdge (G : GraphState) (u v : Ident) : Bool :=
  G.edges.any (matchesEdge G.directed u v)

/-- `G.add_edge(u, v)` with no attributes: networkx first creates any
missing endpoint node, then adds the edge; an existing edge keeps its
attributes. -/
def addEdgeNoAttr (G : GraphState) (u v : Ident) : GraphState :=
  let G := (G.ensureNode u).ensureNode v
  if G.hasEdge u v then G else { G with edges := G.edges ++ [⟨u, v, none⟩] }

/-- `G.add_edge(u, v, weight=w)`: as above but the weight attribute is
written, overwriting it on an existing edge. -/
def addEdgeWeight (G : GraphState) (u v : Ident) (w : ℚ) : GraphState :=
  let G := (G.ensureNode u).ensureNode v
  if G.hasEdge u v then
    { G with edges := G.edges.map fun e =>
        if matchesEdge G.directed u v e then { e with weight := some w } else e }
  else { G with edges := G.edges ++ [⟨u, v, some w⟩] }

/-- `graph[u][v]['weight'] = w` (the popup only reaches this while the
edge is still present — events that could delete it close the popup
first — so the absent case is a no-op here). -/
def setWeight (G : GraphState) (u v : Ident) (w : ℚ) : GraphState :=
  { G with edges := G.edges.map fun e =>
      if matchesEdge G.directed u v e then { e with weight := some w } else e }

/-- `G.remove_node(i)`: drops the node and every incident edge. -/
def removeNode (G : GraphState) (i : Ident) : GraphState :=
  { G with
    nodes := G.nodes.filter (fun nd => !(nd.1 = i))
    edges := G.edges.filter (fun e => !(e.src = i) && !(e.dst = i)) }

/-- `G.remove_edge(*edge)` on an edge taken from `G.edges()`: removes
that stored edge (first occurrence). -/
def removeEdge (G : GraphState) (e : EdgeData) : GraphState :=
  { G with edges := G.edges.erase e }

end GraphState

/-! ## Geometry: `GraphDrawer.point_line_distance` and its decidable form -/

/-- `GraphDrawer.point_line_distance(point, start, end)` over the reals:
when the endpoints coincide, `math.hypot(start[0]-point[0],
start[1]-point[1])`; otherwise `|A| / math.hypot(e2-s2, e1-s1)` with the
source's numerator `A`. -/
noncomputable def point_line_distance (point pStart pEnd : ℝ × ℝ) : ℝ :=
  if pStart = pEnd then
    Real.sqrt ((pStart.1 - point.1) ^ 2 + (pStart.2 - point.2) ^ 2)
  else
    |(pEnd.2 - pStart.2) * point.1 - (pEnd.1 - pStart.1) * point.2 +
        pEnd.1 * pStart.2 - pEnd.2 * pStart.1| /
      Real.sqrt ((pEnd.2 - pStart.2) ^ 2 + (pEnd.1 - pStart.1) ^ 2)

/-- Decidable form of the source's threshold test
`point_line_distance(pos, a, b) < t`, obtained by squaring; the
equivalence with the real-valued formula is `point_line_hit_iff`. -/
def point_line_hit (point pStart pEnd : Pos) (t : ℤ) : Bool :=
  if pStart = pEnd then
    decide ((pStart.1 - point.1) ^ 2 + (pStart.2 - point.2) ^ 2 < t ^ 2) && decide (0 < t)
  else
    decide (((pEnd.2 - pStart.2) * point.1 - (pEnd.1 - pStart.1) * point.2 +
        pEnd.1 * pStart.2 - pEnd.2 * pStart.1) ^ 2 <
      t ^ 2 * ((pEnd.2 - pStart.2) ^ 2 + (pEnd.1 - pStart.1) ^ 2)) && decide (0 < t)

/-- Cast a pixel position into the real plane. -/
noncomputable def toRealPos (p : Pos) : ℝ × ℝ := ((p.1 : ℝ), (p.2 : ℝ))

/-- Euclidean distance between two points of the plane. -/
noncomputable def euclidDist (a b : ℝ × ℝ) : ℝ :=
  Real.sqrt ((a.1 - b.1) ^ 2 + (a.2 - b.2) ^ 2)

/-- The parametrization `a + t(b - a)` of the infinite line through `a`
and `b`. -/
noncomputable def linePoint (a b : ℝ × ℝ) (t : ℝ) : ℝ × ℝ :=
  (a.1 + t * (b.1 - a.1), a.2 + t * (b.2 - a.2))

/-- The orthogonal projection of `p` onto the line through `a` and `b`
(for `a ≠ b`). -/
noncomputable def perpFoot (p a b : ℝ × ℝ) : ℝ × ℝ :=
  linePoint a b (((p.1 - a.1) * (b.1 - a.1) + (p.2 - a.2) * (b.2 - a.2)) /
    ((b.1 - a.1) ^ 2 + (b.2 - a.2) ^ 2))

/-! ## Toggling directedness (`GraphDrawer.toggle_graph_type`)

`nx.Graph.to_directed` replaces each undirected edge by its two
orientations (a self-loop by one); `nx.DiGraph.to_undirected` re-adds
every directed edge into an undirected graph, so a reciprocal pair
collapses into the first-encountered orientation carrying the
last-encountered weight.  Edge order is modelled as insertion order. -/

/-- Two stored edges carry the same unordered endpoint pair. -/
def samePair (e f : EdgeData) : Bool :=
  (e.src = f.src && e.dst = f.dst) || (e.src = f.dst && e.dst = f.src)

/-- `nx.Graph.to_directed`: both orientations of every edge, one copy of
a self-loop, weights duplicated. -/
def toDirectedEdges (es : List EdgeData) : List EdgeData :=
  es.flatMap fun e => if e.src = e.dst then [e] else [e, ⟨e.dst, e.src, e.weight⟩]

/-- One `Graph.add_edge(u, v, **data)` step of `to_undirected`: an edge
on a fresh pair is appended; on a present pair the stored edge keeps its
orientation but its attributes are overwritten. -/
def addUndirEdge (acc : List EdgeData) (e : EdgeData) : List EdgeData :=
  if acc.any (samePair e) then
    acc.map fun f => if samePair e f then { f with weight := e.weight } else f
  else acc ++ [e]

/-- `nx.DiGraph.to_undirected`: re-add every directed edge. -/
def toUndirectedEdges (es : List EdgeData) : List EdgeData :=
  es.foldl addUndirEdge []

/-- `GraphDrawer.toggle_graph_type`: flip `is_directed` and convert the
graph with `to_directed` / `to_undirected` (nodes are preserved). -/
def toggleGraphType (G : GraphState) : GraphState :=
  if G.directed then
    { directed := false, nodes := G.nodes, edges := toUndirectedEdges G.edges }
  else
    { directed := true, nodes := G.nodes, edges := toDirectedEdges G.edges }

/-! ## Input events and pygame rectangles -/

/-- `pygame.Rect`: an axis-aligned rectangle (integer coordinates). -/
structure Rect where
  x : ℤ
  y : ℤ
  w : ℤ
  h : ℤ
deriving DecidableEq

/-- `Rect.collidepoint(p)`: inside or on the left/top edge, excluding
the right/bottom edge (pygame semantics). -/
def Rect.collide (r : Rect) (p : Pos) : Bool :=
  decide (r.x ≤ p.1) && decide (p.1 < r.x + r.w) &&
    decide (r.y ≤ p.2) && decide (p.2 < r.y + r.h)

/-- The key codes the handlers distinguish (`K_RETURN`, `K_BACKSPACE`,
`K_e`); every other key behaves uniformly. -/
inductive KeyCode where
  | kReturn
  | kBackspace
  | kE
  | kOther
deriving DecidableEq

/-- The discrete pygame events the drawer consumes; `keyUp` carries
`event.unicode`. -/
inductive Event where
  | mouseDown (button : Nat) (pos : Pos)
  | mouseUp (button : Nat) (pos : Pos)
  | mouseMotion (pos : Pos)
  | keyUp (key : KeyCode) (unicode : String)
deriving DecidableEq

/-! ## String helpers

Python string operations used by the popup, implemented over the
character list (kernel-reducible; the library's byte-position-based
`String.trim`/`String.replace`/`String.dropRight` compute the same
strings but do not evaluate definitionally). -/

/-- Python `s.strip()`: drop leading and trailing whitespace. -/
def strTrim (s : String) : String :=
  ⟨((s.toList.dropWhile Char.isWhitespace).reverse.dropWhile Char.isWhitespace).reverse⟩

/-- Python `s.replace(',', '.')`: the pattern and replacement are single
characters, so this is a character map. -/
def commaToDot (s : String) : String :=
  ⟨s.toList.map fun c => if c = ',' then '.' else c⟩

/-- Python `s[:-1]`: drop the last character. -/
def dropLastChar (s : String) : String := ⟨s.toList.dropLast⟩

/-! ## `TextInput` (`text_input.py`) -/

/-- `TextInput` state: the buffer, the active flag, and the input box
rectangle (its pixel geometry comes from font metrics, so concrete
values are supplied by the environment below). -/
structure TextInput where
  text : String
  active : Bool
  rect : Rect
deriving DecidableEq

/-- `TextInput.handle_event`: a mouse press (any button) re-evaluates
`active` from the box rectangle; while active, Return returns the
buffer, Backspace drops the last character (`text[:-1]`) and any other
key appends `event.unicode`.  Returns the optional committed text and
the updated state. -/
def TextInput.handleEvent (ti : TextInput) (e : Event) : Option String × TextInput :=
  match e with
  | .mouseDown _ p => (none, { ti with active := ti.rect.collide p })
  | .keyUp k uni =>
    if ti.active then
      match k with
      | .kReturn => (some ti.text, ti)
      | .kBackspace => (none, { ti with text := dropLastChar ti.text })
      | _ => (none, { ti with text := ti.text ++ uni })
    else (none, ti)
  | _ => (none, ti)

/-- `TextInput.clear`. -/
def TextInput.clear (ti : TextInput) : TextInput := { ti with text := "" }

/-! ## `Popup` (`popup.py`) -/

/-- What the popup edits: `Popup(..., edge=(u,v))` or `Popup(..., node=n)`. -/
inductive PopupTarget where
  | onEdge (u v : Ident)
  | onNode (i : Ident)
deriving DecidableEq

/-- `Popup` state: the target, the metric-derived `background_rect`, and
the embedded `TextInput`. -/
structure Popup where
  target : PopupTarget
  rect : Rect
  input : TextInput
deriving DecidableEq

/-- `Popup.collidepoint`: the background rectangle test. -/
def Popup.collidepoint (p : Popup) (pos : Pos) : Bool := p.rect.collide pos

/-- Model of Python `float(s)` restricted to the grammar
`[+-] digits [. digits]` with at least one digit and no other
characters (exponents, `inf`/`nan` and underscores are not modelled;
no buffer in the verified scenarios uses them).  Whitespace was already
stripped by the caller. -/
def parseFloat (s : String) : Option ℚ :=
  let natVal : List Char → ℚ := fun l => ((l.foldl (fun a c => a * 10 + (c.toNat - 48)) 0 : ℕ) : ℚ)
  let core : List Char → Option ℚ := fun cs =>
    let ip := cs.takeWhile Char.isDigit
    match cs.dropWhile Char.isDigit with
    | [] => if ip.isEmpty then none else some (natVal ip)
    | '.' :: fp =>
      if fp.all Char.isDigit && !(ip.isEmpty && fp.isEmpty) then
        some (natVal ip + natVal fp / (10 : ℚ) ^ fp.length)
      else none
    | _ => none
  match s.toList with
  | '+' :: rest => core rest
  | '-' :: rest => (core rest).map Neg.neg
  | cs => core cs

/-- Python `str.isnumeric()` restricted to ASCII digits (other Unicode
numeric characters are not modelled). -/
def isNumericStr (s : String) : Bool := !s.toList.isEmpty && s.toList.all Char.isDigit

/-- `int(s)` on an all-digit string. -/
def digitStrVal (s : String) : ℚ :=
  ((s.toList.foldl (fun a c => a * 10 + (c.toNat - 48)) 0 : ℕ) : ℚ)

/-- `Popup.handle_event(event, graph)`: processes the event through the
input box; on a Return key-up, `stay` is set to `False` unconditionally
and the committed text is handled — a weight target normalizes
(`replace(',', '.')` then `strip()`) and parses the buffer, writing the
weight on success and clearing the buffer on success or failure; a
label target stores the trimmed text as an integer when numeric, else
as a string.  Returns `(stay, popup', graph')`. -/
def Popup.handleEvent (p : Popup) (e : Event) (G : GraphState) :
    Bool × Popup × GraphState :=
  let r := p.input.handleEvent e
  let p' : Popup := { p with input := r.2 }
  match e with
  | .keyUp .kReturn _ =>
    match r.1 with
    | some s =>
      if strTrim s ≠ "" then
        match p.target with
        | .onEdge u v =>
          match parseFloat (strTrim (commaToDot s)) with
          | some w => (false, { p' with input := r.2.clear }, G.setWeight u v w)
          | none => (false, { p' with input := r.2.clear }, G)
        | .onNode n =>
          let el := strTrim s
          let lb := if isNumericStr el then Ident.num (digitStrVal el) else Ident.str el
          (false, p', G.setLabel n lb)
      else (false, p', G)
    | none => (false, p', G)
  | _ => (true, p', G)

/-! ## `GraphDrawer` interaction state and event handlers (`graph.py`)

A result of `none` models a Python exception escaping the handler
(`KeyError` on a missing `'pos'` attribute, `UnboundLocalError` on the
leaked loop variable), which crashes the event loop. -/

/-- `node_size` (node radius, also the square hit half-width). -/
def node_size : ℤ := 20

/-- `edge_width`. -/
def edge_width : ℤ := 2

/-- Edge hit threshold `self.edge_width + 5`. -/
def edgeThreshold : ℤ := edge_width + 5

/-- The `Save` button rectangle `((10, 10), (60, 30))`. -/
def saveRect : Rect := ⟨10, 10, 60, 30⟩

/-- The `Directed`/`Undirected` button rectangle `((80, 10), (100, 30))`. -/
def dirRect : Rect := ⟨80, 10, 100, 30⟩

/-- The square node hit test used by every hover loop:
`pos[0]-node_size <= m[0] <= pos[0]+node_size` and likewise for `y`. -/
def inNodeBox (nodePos m : Pos) : Bool :=
  decide (nodePos.1 - node_size ≤ m.1) && decide (m.1 ≤ nodePos.1 + node_size) &&
    decide (nodePos.2 - node_size ≤ m.2) && decide (m.2 ≤ nodePos.2 + node_size)

/-- The mutable drawer state the event handlers touch. -/
structure AppState where
  G : GraphState
  node_id : ℕ
  dragging : Option Ident
  edge_start_node : Option Ident
  button_clicked : Bool
  popup : Option Popup
deriving DecidableEq

/-- Pixel geometry the popup constructor derives from font metrics
(external to the core): the popup background rectangle and the input
box rectangle for a popup opened at a given mouse position. -/
structure Env where
  popupRect : Pos → Rect
  inputRect : Pos → Rect

/-- State after `GraphDrawer.__init__` (an empty undirected graph,
counter 0, no drag, no pending link, no popup). -/
def initState : AppState :=
  { G := ⟨false, [], []⟩, node_id := 0, dragging := none,
    edge_start_node := none, button_clicked := false, popup := none }

/-- One hover loop `for node in G.nodes(): pos = G.nodes[node]['pos']; if
<box test>: ... return` — reads every node's `pos` in insertion order
(`none` = `KeyError` on a node without one); when `stopHit` is set the
scan stops at the first hovered node, otherwise (buttons outside 1/2/3
in `handle_graph_interaction`) no branch returns and the scan continues
past hits.  `some none` = the loop fell through. -/
def scanHover (stopHit : Bool) (m : Pos) :
    List (Ident × NodeData) → Option (Option Ident)
  | [] => some none
  | (i, d) :: rest =>
    match d.pos with
    | none => none
    | some q => if stopHit && inNodeBox q m then some (some i) else scanHover stopHit m rest

/-- The node hover loop of `handle_key_up`'s Backspace branch: identical
to `scanHover`, but the loop variable `pos` leaks — the position of the
last node examined is also returned. -/
def scanHoverLastPos (m : Pos) (lastPos : Option Pos) :
    List (Ident × NodeData) → Option (Option Ident × Option Pos)
  | [] => some (none, lastPos)
  | (i, d) :: rest =>
    match d.pos with
    | none => none
    | some q =>
      if inNodeBox q m then some (some i, some q)
      else scanHoverLastPos m (some q) rest

/-- The edge scan shared by `delete_edge` and the `K_e` branch:
`for edge in G.edges()`, look up both endpoint positions and test
`point_line_distance(pos, src_pos, dest_pos) < edge_width + 5`
(in its decidable squared form), returning the first hit in insertion
order.  `none` = `KeyError` on a missing endpoint position. -/
def firstEdgeHit (G : GraphState) (m : Pos) : List EdgeData → Option (Option EdgeData)
  | [] => some none
  | e :: rest =>
    match G.nodePos e.src, G.nodePos e.dst with
    | some a, some b =>
      if point_line_hit m a b edgeThreshold then some (some e) else firstEdgeHit G m rest
    | _, _ => none

/-- `GraphDrawer.delete_edge(pos)`: remove the first edge within the
threshold of `pos`, if any. -/
def delete_edge (G : GraphState) (m : Pos) : Option GraphState :=
  match firstEdgeHit G m G.edges with
  | none => none
  | some none => some G
  | some (some e) => some (G.removeEdge e)

/-- `GraphDrawer.add_node(pos)`: bump the counter and add a node at the
pointer. -/
def add_node (s : AppState) (m : Pos) : AppState :=
  let newId := s.node_id + 1
  { s with node_id := newId, G := s.G.addNodeWithPos (.num (newId : ℚ)) m }

/-- `GraphDrawer.handle_graph_interaction(event)`: scan nodes (a press
of button 1 on a node clears the pending link and starts a drag; button
3 drives the pending-link protocol — `G.add_edge` when the second,
distinct endpoint is pressed; button 2 removes the node); on falling
through, button 1 adds a node at the pointer and button 2 deletes the
first edge near the pointer. -/
def handle_graph_interaction (s : AppState) (button : Nat) (m : Pos) : Option AppState :=
  match scanHover (button = 1 || button = 2 || button = 3) m s.G.nodes with
  | none => none
  | some (some n) =>
    if button = 1 then some { s with edge_start_node := none, dragging := some n }
    else if button = 3 then
      match s.edge_start_node with
      | none => some { s with edge_start_node := some n }
      | some p =>
        if p ≠ n then some { s with G := s.G.addEdgeNoAttr p n, edge_start_node := none }
        else some { s with edge_start_node := none }
    else some { s with G := s.G.removeNode n, dragging := none }
  | some none =>
    if button = 1 then some (add_node s m)
    else if button = 2 then (delete_edge s.G m).map fun G' => { s with G := G' }
    else some s

/-- `GraphDrawer.handle_mouse_down(event)`: the Save button saves the
graph to disk (no model-state change beyond `button_clicked`), the
Directed button toggles the graph type, anything else goes to
`handle_graph_interaction`.  (The initial popup guard is dead code on
this path: the dispatcher only calls this with no popup open.) -/
def handle_mouse_down (s : AppState) (button : Nat) (m : Pos) : Option AppState :=
  if saveRect.collide m then some { s with button_clicked := true }
  else if dirRect.collide m then some { s with G := toggleGraphType s.G }
  else handle_graph_interaction s button m

/-- `GraphDrawer.handle_mouse_up(event)`: releasing button 1 ends any
drag and un-clicks the Save button. -/
def handle_mouse_up (s : AppState) (button : Nat) : AppState :=
  if button = 1 then { s with button_clicked := false, dragging := none } else s

/-- `GraphDrawer.handle_mouse_motion(event)`: while dragging, store the
raw pointer position as the node's position (no clamping here; a
vanished dragged node would raise `KeyError`). -/
def handle_mouse_motion (s : AppState) (m : Pos) : Option AppState :=
  match s.dragging with
  | none => some s
  | some n =>
    if s.G.hasNode n then some { s with G := s.G.setPos n m } else none

/-- `GraphDrawer.handle_key_up(event)`: `K_e` closes any popup and opens
a label popup on the hovered node, else a weight popup on the first
edge within the threshold of the pointer; `K_BACKSPACE` removes the
hovered node — and otherwise calls `delete_edge(pos)` on the *leaked
loop variable* (the last node's position), raising `UnboundLocalError`
when the graph has no nodes. -/
def handle_key_up (env : Env) (s : AppState) (key : KeyCode) (m : Pos) : Option AppState :=
  if key = .kE then
    match scanHover true m s.G.nodes with
    | none => none
    | some (some n) =>
      some { s with popup := some ⟨.onNode n, env.popupRect m,
        ⟨"", false, env.inputRect m⟩⟩ }
    | some none =>
      match firstEdgeHit s.G m s.G.edges with
      | none => none
      | some (some e) =>
        some { s with popup := some ⟨.onEdge e.src e.dst, env.popupRect m,
          ⟨"", false, env.inputRect m⟩⟩ }
      | some none => some { s with popup := none }
  else if key = .kBackspace then
    match scanHoverLastPos m none s.G.nodes with
    | none => none
    | some (some n, _) => some { s with G := s.G.removeNode n, dragging := none }
    | some (none, some lastPos) => (delete_edge s.G lastPos).map fun G' => { s with G := G' }
    | some (none, none) => none
  else some s

/-- `GraphDrawer.handle_event(event)`: with a popup open, events with
the *current mouse position* inside the popup go to the popup (closing
it when `stay` is false, after any commit mutation); an event outside
closes the popup — unless it is a mouse-motion event, which is ignored.
With no popup, dispatch on the event type. -/
def handleEvent (env : Env) (mouse : Pos) (s : AppState) (e : Event) : Option AppState :=
  match s.popup with
  | some p =>
    if p.collidepoint mouse then
      let r := p.handleEvent e s.G
      if r.1 then some { s with popup := some r.2.1, G := r.2.2 }
      else some { s with popup := none, G := r.2.2 }
    else
      match e with
      | .mouseMotion _ => some s
      | _ => some { s with popup := none }
  | none =>
    match e with
    | .mouseDown b pos => handle_mouse_down s b pos
    | .mouseUp b _ => some (handle_mouse_up s b)
    | .mouseMotion pos => handle_mouse_motion s pos
    | .keyUp k _ => handle_key_up env s k mouse

/-- Process a list of `(mouse position, event)` pairs in arrival order
(the mouse position accompanies each event because some handlers read
`pygame.mouse.get_pos()` rather than `event.pos`). -/
def processEvents (env : Env) : AppState → List (Pos × Event) → Option AppState
  | s, [] => some s
  | s, (m, e) :: rest =>
    match handleEvent env m s e with
    | none => none
    | some s' => processEvents env s' rest

/-- `GraphDrawer.draw_graph`'s per-frame position rewrite: every node's
stored position is clamped from above to
`(width - node_size, height - node_size)` by `min` — there is no lower
clamp.  A node without a position raises `KeyError` (`none`). -/
def drawClamp (G : GraphState) (width height : ℤ) : Option GraphState :=
  if G.nodes.all (fun nd => nd.2.pos.isSome) then
    some { G with nodes := G.nodes.map fun nd =>
      (nd.1, { nd.2 with pos := nd.2.pos.map fun q =>
        (min (width - node_size) q.1, min (height - node_size) q.2) }) }
  else none

/-! ## Persistence (`save_graph`, `import_graph`) -/

/-- The JSON values the codec reads and writes (numbers as rationals). -/
inductive J where
  | bool (b : Bool)
  | num (q : ℚ)
  | str (s : String)
  | arr (xs : List J)
  | obj (fields : List (String × J))

/-- Dictionary lookup (first binding wins, as in a parsed JSON object). -/
def lookupJ (fields : List (String × J)) (k : String) : Option J :=
  (fields.find? (·.1 = k)).map (·.2)

/-- Python truthiness of a JSON value (`nx.DiGraph() if self.is_directed
else nx.Graph()` branches on it). -/
def truthy : J → Bool
  | .bool b => b
  | .num q => !(q = 0)
  | .str s => !s.isEmpty
  | .arr xs => !xs.isEmpty
  | .obj fs => !fs.isEmpty

/-- A JSON value used as a dictionary key / node id.  Booleans hash as
the integers 0/1 in Python; arrays and objects are unhashable
(`TypeError`, modelled as `none`). -/
def toIdent : J → Option Ident
  | .bool b => some (.num (if b then 1 else 0))
  | .num q => some (.num q)
  | .str s => some (.str s)
  | _ => none

/-- Serialize an id/label. -/
def identToJ : Ident → J
  | .num q => .num q
  | .str s => .str s

/-- `GraphDrawer.save_graph`: the exported document — `directed`,
`multigraph: false`, one `{"id": label-or-raw-id}` object per node
(`G.nodes[node].get('label', node)`), and one
`{"source", "target", "weight"}` object per edge with a missing weight
exported as `0.0`.  Positions are not written. -/
def save_graph (G : GraphState) : J :=
  .obj [("directed", .bool G.directed),
        ("multigraph", .bool false),
        ("vertices", .arr (G.nodes.map fun nd =>
          .obj [("id", identToJ (nd.2.label.getD nd.1))])),
        ("edges", .arr (G.edges.map fun e =>
          .obj [("source", identToJ e.src),
                ("target", identToJ e.dst),
                ("weight", .num (e.weight.getD 0))]))]

/-- What the importer reads: a missing file (`FileNotFoundError` before
any mutation), a file that fails `json.load` (also before any
mutation), or a parsed JSON document. -/
inductive ImportInput where
  | missingFile
  | malformedJson
  | parsed (j : J)

/-- The `for vertex in data['vertices']` loop: each entry must be an
object with an `"id"` key holding a hashable value, added by
`G.add_node`; any violation raises (`TypeError`/`KeyError`) and aborts
the loop with the nodes added so far (`false`). -/
def addVerticesJ : GraphState → List J → GraphState × Bool
  | G, [] => (G, true)
  | G, .obj fs :: rest =>
    match lookupJ fs "id" with
    | some idj =>
      match toIdent idj with
      | some i => addVerticesJ (G.ensureNode i) rest
      | none => (G, false)
    | none => (G, false)
  | G, _ :: _ => (G, false)

/-- The `for edge in data['edges']` loop: each entry needs `"source"`
and `"target"` (`KeyError` aborts with the edges added so far);
`edge.get('weight', 0.0)` defaults a missing weight to `0.0` (a
non-numeric weight value, which Python would store verbatim, is
modelled as `0`; no verified scenario uses one). -/
def addEdgesJ : GraphState → List J → GraphState × Bool
  | G, [] => (G, true)
  | G, .obj fs :: rest =>
    match lookupJ fs "source", lookupJ fs "target" with
    | some sj, some tj =>
      match toIdent sj, toIdent tj with
      | some u, some v =>
        let w : ℚ := match lookupJ fs "weight" with
          | some (.num q) => q
          | _ => 0
        addEdgesJ (G.addEdgeWeight u v w) rest
      | _, _ => (G, false)
    | _, _ => (G, false)
  | G, _ :: _ => (G, false)

/-- The post-layout viewport mapping of `import_graph`, applied to the
output of `nx.spring_layout` (supplied as the oracle `layout`): take
the bounding box of the placed points (`max()`/`min()` raise
`ValueError` on an empty layout), compute
`scale = (extent - 2*node_size) / (max - min)` per axis **with no guard
for a degenerate box** — a zero denominator makes the numpy quotient
infinite, the subsequent `0 * inf` a NaN, and `int(nan)` raises
`ValueError`, aborting before any position is assigned — then store
`int((p - min) * scale + node_size)` per node (`int` truncation, which
equals `⌊·⌋` for these non-negative values). -/
def layoutPhase (layout : List (Ident × LPos)) (width height : ℤ)
    (G : GraphState) : GraphState × Bool :=
  match layout with
  | [] => (G, false)
  | (i0, p0) :: rest =>
    let maxx := (rest.map (·.2.1)).foldl max p0.1
    let minx := (rest.map (·.2.1)).foldl min p0.1
    let maxy := (rest.map (·.2.2)).foldl max p0.2
    let miny := (rest.map (·.2.2)).foldl min p0.2
    if maxx - minx = 0 || maxy - miny = 0 then (G, false)
    else
      let sx := ((width : ℚ) - 2 * (node_size : ℚ)) / (maxx - minx)
      let sy := ((height : ℚ) - 2 * (node_size : ℚ)) / (maxy - miny)
      let G' := ((i0, p0) :: rest).foldl (fun G nd =>
        G.setPos nd.1 (⌊(nd.2.1 - minx) * sx + (node_size : ℚ)⌋,
                       ⌊(nd.2.2 - miny) * sy + (node_size : ℚ)⌋)) G
      (G', true)

/-- `GraphDrawer.import_graph`: everything runs inside one
`try/except`, so a raised exception returns with whatever mutations
already happened (`false` = the error path was taken).  The body:
`json.load` (its failures and a missing file raise before any
mutation), then `self.G.clear()`, then `is_directed :=
data.get('directed', False)` (truthiness) and a fresh graph of the
matching class, then the vertex loop, the edge loop, and the layout
mapping (with `layout` standing for the `nx.spring_layout` result on
the rebuilt graph).  A non-object document raises when `.get` is
looked up — after the clear. -/
def import_graph (layout : List (Ident × LPos)) (width height : ℤ)
    (s : AppState) (inp : ImportInput) : AppState × Bool :=
  match inp with
  | .missingFile => (s, false)
  | .malformedJson => (s, false)
  | .parsed j =>
    let cleared : AppState := { s with G := { s.G with nodes := [], edges := [] } }
    match j with
    | .obj fs =>
      let dir := truthy ((lookupJ fs "directed").getD (.bool false))
      let s1 : AppState := { s with G := ⟨dir, [], []⟩ }
      match lookupJ fs "vertices" with
      | none => (s1, false)
      | some (.arr vs) =>
        match addVerticesJ s1.G vs with
        | (G2, false) => ({ s1 with G := G2 }, false)
        | (G2, true) =>
          match lookupJ fs "edges" with
          | none => ({ s1 with G := G2 }, false)
          | some (.arr es) =>
            match addEdgesJ G2 es with
            | (G3, false) => ({ s1 with G := G3 }, false)
            | (G3, true) =>
              match layoutPhase layout width height G3 with
              | (G4, ok) => ({ s1 with G := G4 }, ok)
          | some _ => ({ s1 with G := G2 }, false)
      | some _ => (s1, false)
    | _ => (cleared, false)

/-! ## Concrete fixtures used by the claim theorems -/

/-- A fixed metric environment: popup geometry is irrelevant to the
scenarios below that never open a popup. -/
def envFixed : Env := ⟨fun _ => ⟨0, 0, 0, 0⟩, fun _ => ⟨0, 0, 0, 0⟩⟩

/-- The §8 scenario: two primary presses on empty canvas (with their
releases) create nodes 1 and 2; two secondary presses link them. -/
def scenarioTwoNodesLink : List (Pos × Event) :=
  [((100, 100), .mouseDown 1 (100, 100)), ((100, 100), .mouseUp 1 (100, 100)),
   ((300, 300), .mouseDown 1 (300, 300)), ((300, 300), .mouseUp 1 (300, 300)),
   ((100, 100), .mouseDown 3 (100, 100)), ((300, 300), .mouseDown 3 (300, 300))]

/-- Create nodes 1 and 2, start a pending link at node 1, delete node 1
with a tertiary press, then press secondary on node 2 — completing the
pending link whose first endpoint was deleted. -/
def traceReintroduce : List (Pos × Event) :=
  [((100, 100), .mouseDown 1 (100, 100)),
   ((300, 300), .mouseDown 1 (300, 300)),
   ((100, 100), .mouseDown 3 (100, 100)),
   ((100, 100), .mouseDown 2 (100, 100)),
   ((300, 300), .mouseDown 3 (300, 300))]

/-- Two nodes at (100,100) and (300,300) joined by one edge, no popup. -/
def stTwoNodesEdge : AppState :=
  { G := ⟨false, [(.num 1, ⟨some (100, 100), none⟩), (.num 2, ⟨some (300, 300), none⟩)],
          [⟨.num 1, .num 2, none⟩]⟩,
    node_id := 2, dragging := none, edge_start_node := none,
    button_clicked := false, popup := none }

/-- The same graph with the edge weighted 4. -/
def graphWeighted : GraphState :=
  ⟨false, [(.num 1, ⟨some (100, 100), none⟩), (.num 2, ⟨some (300, 300), none⟩)],
   [⟨.num 1, .num 2, some 4⟩]⟩

/-- A weight popup on edge (1,2) whose input box is active and buffers
`"abc"`, with a concrete background rectangle. -/
def popupAbc : Popup :=
  ⟨.onEdge (.num 1) (.num 2), ⟨0, 0, 200, 100⟩, ⟨"abc", true, ⟨10, 10, 100, 30⟩⟩⟩

/-- The drawer state with `popupAbc` open over `graphWeighted`. -/
def stPopupAbc : AppState :=
  { G := graphWeighted, node_id := 2, dragging := none, edge_start_node := none,
    button_clicked := false, popup := some popupAbc }

/-- One node, graph as before an import. -/
def stOneNode : AppState :=
  { initState with G := ⟨false, [(.num 1, ⟨some (50, 50), none⟩)], []⟩, node_id := 1 }

/-- One node being dragged. -/
def stDragOne : AppState :=
  { initState with
    G := ⟨false, [(.num 1, ⟨some (400, 300), none⟩)], []⟩
    node_id := 1
    dragging := some (.num 1) }

/-- A directed graph holding one unreciprocated edge (1,2). -/
def graphDirectedOne : GraphState :=
  ⟨true, [(.num 1, ⟨some (0, 0), none⟩), (.num 2, ⟨some (1, 1), none⟩)],
   [⟨.num 1, .num 2, some 5⟩]⟩

/-- An undirected graph holding the single edge (1,2). -/
def graphUndirectedOne : GraphState :=
  ⟨false, [(.num 1, ⟨some (0, 0), none⟩), (.num 2, ⟨some (1, 1), none⟩)],
   [⟨.num 1, .num 2, some 3⟩]⟩

/-! ## The counter invariant (C6) -/

/-- The id bound maintained by the counter: editor ids are numeric and
at most the counter. -/
def idLe : Ident → ℕ → Prop
  | .num q, c => q ≤ (c : ℚ)
  | .str _, _ => False

/-- The counter invariant of one editing session started from
`initState`: every node id and any pending-link endpoint is a numeric
id bounded by the counter. -/
def CtrInv (s : AppState) : Prop :=
  (∀ i ∈ s.G.nodeIds, idLe i s.node_id) ∧
  (∀ i, s.edge_start_node = some i → idLe i s.node_id)

/-- What one processed event preserves: the counter invariant, counter
monotonicity, and id provenance — every id present afterwards was
present before, is the fresh id `counter + 1`, or is the stored
pending-link endpoint. -/
def StepPreserves (s s' : AppState) : Prop :=
  CtrInv s' ∧ s.node_id ≤ s'.node_id ∧
  ∀ i ∈ s'.G.nodeIds, i ∈ s.G.nodeIds ∨
    i = Ident.num ((s.node_id + 1 : ℕ) : ℚ) ∨ s.edge_start_node = some i

/-! ## C1 -/

/-- C1: committing the non-numeric buffer `"abc"` in a weight popup
leaves the weight unchanged and clears the buffer, but — contrary to
the claim — the popup does NOT remain open: `Popup.handle_event` sets
`stay = False` before parsing, so `GraphDrawer.handle_event` closes the
popup on every Return commit, valid or not. -/
theorem C1_invalid_weight_commit_closes_popup :
    handleEvent envFixed (50, 50) stPopupAbc (.keyUp .kReturn "") =
      some { stPopupAbc with popup := none } ∧
    (popupAbc.handleEvent (.keyUp .kReturn "") graphWeighted).1 = false ∧
    (popupAbc.handleEvent (.keyUp .kReturn "") graphWeighted).2.2 = graphWeighted ∧
    (popupAbc.handleEvent (.keyUp .kReturn "") graphWeighted).2.1.input.text = "" ∧
    parseFloat "abc" = none := by
  decide

/-! ## C2 -/

/-- C2 (amended): the failures that occur before any mutation — missing
file and malformed JSON — leave the drawer state exactly as it was. -/
theorem C2_prefail_import_leaves_state_untouched :
    ∀ (layout : List (Ident × LPos)) (w h : ℤ) (s : AppState),
      import_graph layout w h s .missingFile = (s, false) ∧
      import_graph layout w h s .malformedJson = (s, false) := by
  intro layout w h s
  exact ⟨rfl, rfl⟩

/-- C2 (counterexample): a parsed document without the required
`"vertices"` field fails only after `self.G.clear()`, so the
pre-existing graph (here one node) comes back empty — not equal to its
state before the call. -/
theorem C2_schema_violation_clears_graph :
    import_graph [] 800 600 stOneNode (.parsed (.obj [("directed", .bool false)])) =
      ({ stOneNode with G := ⟨false, [], []⟩ }, false) ∧
    stOneNode.G.nodes ≠ [] := by
  decide

/-! ## C3 -/

/-- C3: importing a single-node document places one layout point, the
bounding box has zero extent, and — contrary to the claim — no nonzero
extent is substituted: the scale division hits the zero denominator
(numpy produces `inf`/`nan` and `int(nan)` raises), the import aborts
through the exception handler (`false`), and the node is left with no
position at all. -/
theorem C3_degenerate_layout_box_aborts_import :
    import_graph [(.num 1, (0, 0))] 800 600 initState
      (.parsed (.obj [("vertices", .arr [.obj [("id", .num 1)]]), ("edges", .arr [])])) =
      ({ initState with G := ⟨false, [(.num 1, ⟨none, none⟩)], []⟩ }, false) ∧
    layoutPhase [(.num 1, (0, 0))] 800 600 ⟨false, [(.num 1, ⟨none, none⟩)], []⟩ =
      (⟨false, [(.num 1, ⟨none, none⟩)], []⟩, false) := by
  constructor
  · simp [import_graph, addVerticesJ, addEdgesJ, lookupJ, layoutPhase, truthy, toIdent,
      initState, GraphState.ensureNode, GraphState.hasNode]
  · simp [layoutPhase]

/-! ## C4 -/

/-- C4: with the pointer at (500,100) — over no node and within the
threshold of no edge — a Backspace key-up nevertheless deletes the edge
(1,2), because the code passes the leaked loop variable (the last
node's position, which lies on that edge) to `delete_edge` instead of
the pointer position; and on an empty graph the same key-up raises
`UnboundLocalError` (modelled `none`) instead of doing nothing. -/
theorem C4_backspace_uses_leaked_loop_position :
    (handleEvent envFixed (500, 100) stTwoNodesEdge (.keyUp .kBackspace "")).map
        (fun s => s.G.edges) = some [] ∧
    scanHover true (500, 100) stTwoNodesEdge.G.nodes = some none ∧
    firstEdgeHit stTwoNodesEdge.G (500, 100) stTwoNodesEdge.G.edges = some none ∧
    handleEvent envFixed (500, 100) initState (.keyUp .kBackspace "") = none := by
  decide

/-! ## C5 -/

/-- C5 (counterexample): dragging node 1 in an 800×600 viewport, a
motion event at (799,599) stores exactly (799,599) — the motion handler
applies no clamping, and the stored x-coordinate exceeds the claimed
upper bound `viewportWidth - nodeRadius`. -/
theorem C5_motion_stores_unclamped_position :
    (handle_mouse_motion stDragOne (799, 599)).map
        (fun s => s.G.nodePos (.num 1)) = some (some (799, 599)) ∧
    ¬((799 : ℤ) ≤ 800 - node_size) := by
  decide

/-! ## Supporting lemmas for the position operations -/

/-- Position lookup after `setPos` on a present node. -/
theorem nodePos_setPos (G : GraphState) (n : Ident) (p : Pos)
    (h : G.hasNode n = true) : (G.setPos n p).nodePos n = some p := by
  obtain ⟨d, ns, es⟩ := G
  unfold GraphState.hasNode at h
  unfold GraphState.setPos GraphState.nodePos
  dsimp only at h ⊢
  induction ns with
  | nil => simp at h
  | cons hd tl ih =>
    by_cases hh : hd.1 = n
    · simp [hh]
    · simp only [List.any_cons, hh, decide_False, Bool.false_or] at h
      simpa [hh] using ih h

/-- Position lookup after the draw-pass clamp. -/
theorem nodePos_drawClamp (G G2 : GraphState) (w h : ℤ) (n : Ident)
    (hc : drawClamp G w h = some G2) :
    G2.nodePos n = (G.nodePos n).map
      fun q => (min (w - node_size) q.1, min (h - node_size) q.2) := by
  obtain ⟨d, ns, es⟩ := G
  unfold drawClamp at hc
  split at hc
  · rename_i hall
    have hG2 := (Option.some.injEq _ _).mp hc
    subst hG2
    clear hall hc
    unfold GraphState.nodePos
    dsimp only
    induction ns with
    | nil => rfl
    | cons hd tl ih =>
      by_cases hh : hd.1 = n
      · cases hpos : hd.2.pos <;> simp [hh, hpos]
      · simpa [hh] using ih
  · exact absurd hc (by simp)

/-! ## C5, amended -/

/-- C5 (amended): a motion event while dragging a present node stores
the raw pointer position; a subsequent successful draw pass clamps each
coordinate from above by `min` with `extent - node_size` — and performs
no lower clamping. -/
theorem C5_amended_raw_motion_then_min_clamp :
    ∀ (s : AppState) (n : Ident) (p : Pos),
      s.dragging = some n → s.G.hasNode n = true →
      ∃ s', handle_mouse_motion s p = some s' ∧
        s'.G.nodePos n = some p ∧
        ∀ (w h : ℤ) (G2 : GraphState), drawClamp s'.G w h = some G2 →
          G2.nodePos n = some (min (w - node_size) p.1, min (h - node_size) p.2) := by
  intro s n p hd hn
  refine ⟨{ s with G := s.G.setPos n p }, ?_, nodePos_setPos s.G n p hn, ?_⟩
  · simp [handle_mouse_motion, hd, hn]
  · intro w h G2 hc
    rw [nodePos_drawClamp _ _ _ _ _ hc, nodePos_setPos s.G n p hn]
    rfl

/-- Witness for `C5_amended_raw_motion_then_min_clamp` at the dragged
node 1 and pointer (799,599). -/
theorem C5_amended_raw_motion_witness :
    stDragOne.dragging = some (Ident.num 1) ∧
    stDragOne.G.hasNode (Ident.num 1) = true ∧
    ∃ s', handle_mouse_motion stDragOne (799, 599) = some s' ∧
      s'.G.nodePos (Ident.num 1) = some (799, 599) ∧
      ∀ (w h : ℤ) (G2 : GraphState), drawClamp s'.G w h = some G2 →
        G2.nodePos (Ident.num 1) =
          some (min (w - node_size) 799, min (h - node_size) 599) :=
  ⟨rfl, by decide,
    C5_amended_raw_motion_then_min_clamp stDragOne (Ident.num 1) (799, 599) rfl (by decide)⟩

/-! ## C6, counterexample -/

/-- C6 (counterexample): in the five-event trace, node id 1 is present
after three events, removed by the tertiary press (only id 2 remains),
and reappears in the node set after the secondary press on node 2
completes the pending link whose first endpoint was id 1. -/
theorem C6_removed_id_reintroduced_by_pending_link :
    (processEvents envFixed initState (traceReintroduce.take 3)).map
        (fun s => s.G.nodeIds) = some [.num 1, .num 2] ∧
    (processEvents envFixed initState (traceReintroduce.take 4)).map
        (fun s => s.G.nodeIds) = some [.num 2] ∧
    (processEvents envFixed initState traceReintroduce).map
        (fun s => s.G.nodeIds) = some [.num 2, .num 1] := by
  decide

/-! ## C7 -/

/-- C7 (counterexample): starting from a directed graph whose only edge
is (1,2), toggling twice yields the edges (1,2) and (2,1) — an edge set
that differs from the original by the extra reversed edge, regardless
of any weight tie-break. -/
theorem C7_directed_double_toggle_not_identity :
    (graphDirectedOne.edges.map fun e => (e.src, e.dst)) = [(.num 1, .num 2)] ∧
    ((toggleGraphType (toggleGraphType graphDirectedOne)).edges.map fun e => (e.src, e.dst)) =
      [(.num 1, .num 2), (.num 2, .num 1)] := by
  decide

/-- `samePair` is symmetric. -/
theorem samePair_comm (e f : EdgeData) : samePair e f = samePair f e := by
  rw [Bool.eq_iff_iff]
  simp only [samePair, Bool.or_eq_true, Bool.and_eq_true, decide_eq_true_eq]
  constructor
  · rintro (⟨ha, hb⟩ | ⟨ha, hb⟩)
    · exact Or.inl ⟨ha.symm, hb.symm⟩
    · exact Or.inr ⟨hb.symm, ha.symm⟩
  · rintro (⟨ha, hb⟩ | ⟨ha, hb⟩)
    · exact Or.inl ⟨ha.symm, hb.symm⟩
    · exact Or.inr ⟨hb.symm, ha.symm⟩

/-- `samePair` ignores the weight and the orientation of its first
argument. -/
theorem samePair_swapped (u v : Ident) (w w' : Option ℚ) (f : EdgeData) :
    samePair ⟨v, u, w⟩ f = samePair ⟨u, v, w'⟩ f := by
  rw [Bool.eq_iff_iff]
  simp only [samePair, Bool.or_eq_true, Bool.and_eq_true, decide_eq_true_eq]
  constructor
  · rintro (⟨ha, hb⟩ | ⟨ha, hb⟩)
    · exact Or.inr ⟨hb, ha⟩
    · exact Or.inl ⟨hb, ha⟩
  · rintro (⟨ha, hb⟩ | ⟨ha, hb⟩)
    · exact Or.inr ⟨hb, ha⟩
    · exact Or.inl ⟨hb, ha⟩

/-- Adding an edge on a fresh pair appends it. -/
theorem addUndirEdge_fresh (acc : List EdgeData) (e : EdgeData)
    (h : acc.any (samePair e) = false) : addUndirEdge acc e = acc ++ [e] := by
  simp [addUndirEdge, h]

/-- A map that fixes every element of a list is the identity on it. -/
theorem map_no_change {α : Type} (g : α → α) :
    ∀ l : List α, (∀ x ∈ l, g x = x) → l.map g = l := by
  intro l h
  induction l with
  | nil => rfl
  | cons hd tl ih =>
    simp only [List.map_cons, h hd (List.mem_cons_self hd tl),
      ih fun x hx => h x (List.mem_cons_of_mem hd hx)]

/-- Collapsing the two orientations produced by `to_directed` restores
the original undirected edge list, provided its unordered pairs are
pairwise distinct (as they are in any graph built through `add_edge`). -/
theorem toUnd_toDir_aux :
    ∀ (l acc : List EdgeData),
      (∀ e ∈ l, ∀ a ∈ acc, samePair e a = false) →
      l.Pairwise (fun e f => samePair e f = false) →
      (toDirectedEdges l).foldl addUndirEdge acc = acc ++ l := by
  intro l
  induction l with
  | nil => intro acc _ _; simp [toDirectedEdges]
  | cons e tl ih =>
    intro acc hdisj hpw
    have hany : acc.any (samePair e) = false := by
      rw [List.any_eq_false]
      intro a ha
      simp [hdisj e (List.mem_cons_self e tl) a ha]
    have hstep : ∀ rest : List EdgeData,
        ((if e.src = e.dst then [e] else [e, ⟨e.dst, e.src, e.weight⟩]) ++ rest).foldl
          addUndirEdge acc = rest.foldl addUndirEdge (acc ++ [e]) := by
      intro rest
      by_cases hse : e.src = e.dst
      · simp only [hse, if_pos, List.cons_append, List.nil_append, List.foldl_cons]
        rw [addUndirEdge_fresh acc e hany]
      · simp only [hse, if_neg, not_false_iff, List.cons_append, List.nil_append,
          List.foldl_cons]
        rw [addUndirEdge_fresh acc e hany]
        have hswap : addUndirEdge (acc ++ [e]) ⟨e.dst, e.src, e.weight⟩ = acc ++ [e] := by
          have hmatch : samePair ⟨e.dst, e.src, e.weight⟩ e = true := by
            rw [samePair_swapped e.src e.dst e.weight e.weight e]
            simp [samePair]
          have hanyT : (acc ++ [e]).any (samePair ⟨e.dst, e.src, e.weight⟩) = true := by
            simp [List.any_append, hmatch]
          simp only [addUndirEdge, hanyT, if_pos, List.map_append]
          rw [map_no_change _ acc, List.map_cons]
          · simp only [hmatch, if_pos, List.map_nil]
          · intro a ha
            have hfa : samePair ⟨e.dst, e.src, e.weight⟩ a = false := by
              rw [samePair_swapped e.src e.dst e.weight e.weight a]
              show samePair e a = false
              exact eq_false_of_ne_true (List.any_eq_false.mp hany a ha)
            simp [hfa]
        rw [hswap]
    rw [toDirectedEdges, List.flatMap_cons, hstep]
    have hdisj' : ∀ f ∈ tl, ∀ a ∈ acc ++ [e], samePair f a = false := by
      intro f hf a ha
      rcases List.mem_append.mp ha with h | h
      · exact hdisj f (List.mem_cons_of_mem e hf) a h
      · rcases List.mem_singleton.mp h with rfl
        rw [samePair_comm]
        exact (List.pairwise_cons.mp hpw).1 f hf
    rw [← toDirectedEdges, ih (acc ++ [e]) hdisj' (List.pairwise_cons.mp hpw).2]
    simp

/-- C7 (amended): for an undirected graph whose stored edges carry
pairwise distinct unordered endpoint pairs, toggling the graph type
twice restores the state exactly — flag, nodes, edges and weights. -/
theorem C7_amended_undirected_double_toggle_identity :
    ∀ G : GraphState, G.directed = false →
      G.edges.Pairwise (fun e f => samePair e f = false) →
      toggleGraphType (toggleGraphType G) = G := by
  intro G hdir hpw
  obtain ⟨d, ns, es⟩ := G
  dsimp only at hdir hpw
  subst hdir
  have h := toUnd_toDir_aux es [] (fun e _ a ha => absurd ha (List.not_mem_nil a)) hpw
  simp only [toggleGraphType, toUndirectedEdges] at h ⊢
  simp [h]

/-- Witness for `C7_amended_undirected_double_toggle_identity` on the
one-edge undirected graph. -/
theorem C7_amended_witness :
    graphUndirectedOne.directed = false ∧
    graphUndirectedOne.edges.Pairwise (fun e f => samePair e f = false) ∧
    toggleGraphType (toggleGraphType graphUndirectedOne) = graphUndirectedOne :=
  ⟨rfl, by decide,
    C7_amended_undirected_double_toggle_identity graphUndirectedOne rfl (by decide)⟩

/-! ## C9 -/

/-- C9: the two-node scenario — two primary clicks create nodes 1 and 2,
two secondary clicks link them with no weight attribute — exports
exactly the claimed document: `directed=false`, `multigraph=false`,
vertex objects carrying only the raw ids, the single edge with the
missing weight written as `0.0`, and no position data anywhere.  The
second conjunct shows the label rule of the same claim: a node whose
label was set exports the label in place of its raw id. -/
theorem C9_two_node_scenario_export :
    (processEvents envFixed initState scenarioTwoNodesLink).map (fun s => save_graph s.G) =
      some (.obj [("directed", .bool false), ("multigraph", .bool false),
        ("vertices", .arr [.obj [("id", .num 1)], .obj [("id", .num 2)]]),
        ("edges", .arr [.obj [("source", .num 1), ("target", .num 2), ("weight", .num 0)]])]) ∧
    save_graph ⟨false, [(.num 1, ⟨some (0, 0), some (.str "a")⟩)], []⟩ =
      .obj [("directed", .bool false), ("multigraph", .bool false),
        ("vertices", .arr [.obj [("id", .str "a")]]), ("edges", .arr [])] := by
  exact ⟨rfl, rfl⟩

/-! ## C10 -/

/-- C10 (counterexample): with a popup open and the pointer outside its
bounding rectangle, a pointer-motion event does NOT close the popup —
the dispatcher only closes on non-motion events. -/
theorem C10_motion_outside_popup_stays_open :
    handleEvent envFixed (500, 500) stPopupAbc (.mouseMotion (500, 500)) = some stPopupAbc ∧
    popupAbc.collidepoint (500, 500) = false ∧
    stPopupAbc.popup ≠ none := by
  decide

/-- C10 (amended): while a popup is open, any event that is not a
pointer-motion event, arriving with the current pointer position
outside the popup's bounding region, closes the popup without
committing — the result is the same state with the popup (and its
buffered text) discarded and the graph untouched. -/
theorem C10_amended_nonmotion_outside_closes :
    ∀ (env : Env) (mouse : Pos) (s : AppState) (p : Popup) (e : Event),
      s.popup = some p → p.collidepoint mouse = false →
      (∀ q : Pos, e ≠ .mouseMotion q) →
      handleEvent env mouse s e = some { s with popup := none } := by
  intro env mouse s p e hp hc hm
  cases e with
  | mouseMotion q => exact absurd rfl (hm q)
  | mouseDown b pos => simp [handleEvent, hp, hc]
  | mouseUp b pos => simp [handleEvent, hp, hc]
  | keyUp k uni => simp [handleEvent, hp, hc]

/-- Witness for `C10_amended_nonmotion_outside_closes`: a primary press
outside the popup closes it and leaves the weighted graph unchanged. -/
theorem C10_amended_nonmotion_witness :
    stPopupAbc.popup = some popupAbc ∧
    popupAbc.collidepoint (500, 500) = false ∧
    handleEvent envFixed (500, 500) stPopupAbc (.mouseDown 1 (500, 500)) =
      some { stPopupAbc with popup := none } :=
  ⟨rfl, by decide,
    C10_amended_nonmotion_outside_closes envFixed (500, 500) stPopupAbc popupAbc
      (.mouseDown 1 (500, 500)) rfl (by decide) (fun q h => Event.noConfusion h)⟩

/-! ## Faithfulness of the decidable hit test -/

/-- The squared-distance denominator is positive for distinct points. -/
theorem denom_pos {a b : ℝ × ℝ} (hab : a ≠ b) :
    0 < (b.1 - a.1) ^ 2 + (b.2 - a.2) ^ 2 := by
  rcases not_and_or.mp (fun h => hab (Prod.ext h.1 h.2)) with h | h
  · have h1 : b.1 - a.1 ≠ 0 := sub_ne_zero.mpr fun hh => h hh.symm
    exact add_pos_of_pos_of_nonneg (pow_two_pos_of_ne_zero h1) (sq_nonneg _)
  · have h2 : b.2 - a.2 ≠ 0 := sub_ne_zero.mpr fun hh => h hh.symm
    exact add_pos_of_nonneg_of_pos (sq_nonneg _) (pow_two_pos_of_ne_zero h2)

/-- The distance formula is non-negative. -/
theorem point_line_distance_nonneg (p a b : ℝ × ℝ) :
    0 ≤ point_line_distance p a b := by
  unfold point_line_distance
  split
  · exact Real.sqrt_nonneg _
  · exact div_nonneg (abs_nonneg _) (Real.sqrt_nonneg _)

/-- The decidable squared threshold test agrees with the real-valued
`point_line_distance < t` comparison of the source. -/
theorem point_line_hit_iff (point pStart pEnd : Pos) (t : ℤ) :
    point_line_hit point pStart pEnd t = true ↔
      point_line_distance (toRealPos point) (toRealPos pStart) (toRealPos pEnd) < (t : ℝ) := by
  by_cases ht : 0 < t
  · have htr : (0 : ℝ) < (t : ℝ) := by exact_mod_cast ht
    by_cases hse : pStart = pEnd
    · subst hse
      simp only [point_line_hit, point_line_distance, toRealPos, eq_self_iff_true, if_true,
        ht, decide_True, Bool.and_true, decide_eq_true_eq]
      rw [Real.sqrt_lt' htr]
      constructor
      · intro h
        exact_mod_cast h
      · intro h
        exact_mod_cast h
    · have hser : toRealPos pStart ≠ toRealPos pEnd := by
        intro h
        apply hse
        have h1 := congrArg Prod.fst h
        have h2 := congrArg Prod.snd h
        simp only [toRealPos, Int.cast_inj] at h1 h2
        exact Prod.ext h1 h2
      have hser' : ((pStart.1 : ℝ), (pStart.2 : ℝ)) ≠ ((pEnd.1 : ℝ), (pEnd.2 : ℝ)) := by
        simpa only [toRealPos] using hser
      have hD : (0 : ℝ) <
          ((pEnd.2 : ℝ) - (pStart.2 : ℝ)) ^ 2 + ((pEnd.1 : ℝ) - (pStart.1 : ℝ)) ^ 2 := by
        have h := denom_pos hser
        simp only [toRealPos] at h
        linarith [h]
      simp only [point_line_hit, point_line_distance, toRealPos, if_neg hse, if_neg hser',
        ht, decide_True, Bool.and_true, decide_eq_true_eq]
      rw [show |((pEnd.2 : ℝ) - (pStart.2 : ℝ)) * (point.1 : ℝ) -
            ((pEnd.1 : ℝ) - (pStart.1 : ℝ)) * (point.2 : ℝ) +
            (pEnd.1 : ℝ) * (pStart.2 : ℝ) - (pEnd.2 : ℝ) * (pStart.1 : ℝ)| /
          Real.sqrt (((pEnd.2 : ℝ) - (pStart.2 : ℝ)) ^ 2 +
            ((pEnd.1 : ℝ) - (pStart.1 : ℝ)) ^ 2) =
          Real.sqrt ((((pEnd.2 : ℝ) - (pStart.2 : ℝ)) * (point.1 : ℝ) -
            ((pEnd.1 : ℝ) - (pStart.1 : ℝ)) * (point.2 : ℝ) +
            (pEnd.1 : ℝ) * (pStart.2 : ℝ) - (pEnd.2 : ℝ) * (pStart.1 : ℝ)) ^ 2 /
            (((pEnd.2 : ℝ) - (pStart.2 : ℝ)) ^ 2 + ((pEnd.1 : ℝ) - (pStart.1 : ℝ)) ^ 2))
        from by rw [Real.sqrt_div (sq_nonneg _), Real.sqrt_sq_eq_abs]]
      rw [Real.sqrt_lt' htr, div_lt_iff₀ hD]
      constructor
      · intro h
        exact_mod_cast h
      · intro h
        exact_mod_cast h
  · have hbf : point_line_hit point pStart pEnd t = false := by
      unfold point_line_hit
      split <;> simp [ht]
    rw [hbf]
    simp only [Bool.false_eq_true, false_iff, not_lt]
    have h0 := point_line_distance_nonneg (toRealPos point) (toRealPos pStart) (toRealPos pEnd)
    have htr : (t : ℝ) ≤ 0 := by exact_mod_cast not_lt.mp ht
    linarith

/-! ## C8 -/

/-- C8: `point_line_distance(pos, a, b)` is the Euclidean distance from
`pos` to `a` when `a = b`; otherwise it is the perpendicular distance
from `pos` to the infinite line through `a` and `b` — it equals the
distance from `pos` to its orthogonal projection on that line (which is
perpendicular to the direction `b - a`), and it vanishes for every
point of the line, in particular every point of the segment; since the
projection identity holds for every `pos`, a point beyond either
endpoint gets its true perpendicular offset, not a segment-clamped
distance. -/
theorem C8_point_line_distance_characterization :
    ∀ p a b : ℝ × ℝ,
      (a = b → point_line_distance p a b = euclidDist p a) ∧
      (a ≠ b →
        point_line_distance p a b = euclidDist p (perpFoot p a b) ∧
        (p.1 - (perpFoot p a b).1) * (b.1 - a.1) +
          (p.2 - (perpFoot p a b).2) * (b.2 - a.2) = 0 ∧
        ∀ t : ℝ, p = linePoint a b t → point_line_distance p a b = 0) := by
  intro p a b
  constructor
  · intro hab
    subst hab
    simp only [point_line_distance, eq_self_iff_true, if_true, euclidDist]
    rw [show (a.1 - p.1) ^ 2 + (a.2 - p.2) ^ 2 = (p.1 - a.1) ^ 2 + (p.2 - a.2) ^ 2 by ring]
  · intro hab
    have hD : 0 < (b.1 - a.1) ^ 2 + (b.2 - a.2) ^ 2 := denom_pos hab
    have hD0 : (b.1 - a.1) ^ 2 + (b.2 - a.2) ^ 2 ≠ 0 := ne_of_gt hD
    refine ⟨?_, ?_, ?_⟩
    · have key : (p.1 - (perpFoot p a b).1) ^ 2 + (p.2 - (perpFoot p a b).2) ^ 2 =
          ((b.2 - a.2) * p.1 - (b.1 - a.1) * p.2 + b.1 * a.2 - b.2 * a.1) ^ 2 /
            ((b.1 - a.1) ^ 2 + (b.2 - a.2) ^ 2) := by
        simp only [perpFoot, linePoint]
        field_simp
        ring
      simp only [point_line_distance, if_neg hab, euclidDist]
      rw [key, Real.sqrt_div (sq_nonneg _), Real.sqrt_sq_eq_abs,
        show (b.2 - a.2) ^ 2 + (b.1 - a.1) ^ 2 = (b.1 - a.1) ^ 2 + (b.2 - a.2) ^ 2 by ring]
    · simp only [perpFoot, linePoint]
      field_simp
      ring
    · intro t hpt
      have hA : (b.2 - a.2) * p.1 - (b.1 - a.1) * p.2 + b.1 * a.2 - b.2 * a.1 = 0 := by
        subst hpt
        simp only [linePoint]
        ring
      simp only [point_line_distance, if_neg hab, hA, abs_zero, zero_div]

/-- Witness for `C8_point_line_distance_characterization`: the distinct
pair `(0,0) ≠ (1,0)` with the off-line point `(0,2)`, and the
coincident pair at `(3,4)`. -/
theorem C8_point_line_distance_witness :
    (((0 : ℝ), (0 : ℝ)) : ℝ × ℝ) ≠ ((1 : ℝ), (0 : ℝ)) ∧
    point_line_distance ((0 : ℝ), (2 : ℝ)) ((0 : ℝ), (0 : ℝ)) ((1 : ℝ), (0 : ℝ)) =
      euclidDist ((0 : ℝ), (2 : ℝ))
        (perpFoot ((0 : ℝ), (2 : ℝ)) ((0 : ℝ), (0 : ℝ)) ((1 : ℝ), (0 : ℝ))) ∧
    point_line_distance ((0 : ℝ), (2 : ℝ)) ((3 : ℝ), (4 : ℝ)) ((3 : ℝ), (4 : ℝ)) =
      euclidDist ((0 : ℝ), (2 : ℝ)) ((3 : ℝ), (4 : ℝ)) := by
  have hne : (((0 : ℝ), (0 : ℝ)) : ℝ × ℝ) ≠ ((1 : ℝ), (0 : ℝ)) := by
    intro h
    exact one_ne_zero (congrArg Prod.fst h).symm
  exact ⟨hne, ((C8_point_line_distance_characterization _ _ _).2 hne).1,
    (C8_point_line_distance_characterization _ _ _).1 rfl⟩

/-! ## C6, amended -/

theorem idLe_mono {i : Ident} {c c' : ℕ} (h : idLe i c) (hcc : c ≤ c') : idLe i c' := by
  cases i with
  | num q => exact le_trans h (by exact_mod_cast hcc)
  | str s => exact h.elim

theorem fresh_not_mem (s : AppState) (h : CtrInv s) :
    Ident.num ((s.node_id + 1 : ℕ) : ℚ) ∉ s.G.nodeIds := by
  intro hmem
  have h1 := h.1 _ hmem
  simp only [idLe] at h1
  have h2 : (s.node_id + 1 : ℕ) ≤ s.node_id := by exact_mod_cast h1
  omega

/-- Mapping a first-component-preserving function does not change the
projected id list. -/
theorem map_fst_of_update (f : Ident × NodeData → Ident × NodeData)
    (hf : ∀ nd, (f nd).1 = nd.1) :
    ∀ l : List (Ident × NodeData), (l.map f).map (·.1) = l.map (·.1) := by
  intro l
  induction l with
  | nil => rfl
  | cons hd tl ih => simp only [List.map_cons, hf, ih]

theorem nodeIds_setPos (G : GraphState) (n : Ident) (p : Pos) :
    (G.setPos n p).nodeIds = G.nodeIds := by
  simp only [GraphState.setPos, GraphState.nodeIds]
  exact map_fst_of_update _ (fun nd => by by_cases h : nd.1 = n <;> simp [h]) _

theorem nodeIds_setLabel (G : GraphState) (n l : Ident) :
    (G.setLabel n l).nodeIds = G.nodeIds := by
  simp only [GraphState.setLabel, GraphState.nodeIds]
  exact map_fst_of_update _ (fun nd => by by_cases h : nd.1 = n <;> simp [h]) _

theorem nodeIds_setWeight (G : GraphState) (u v : Ident) (w : ℚ) :
    (G.setWeight u v w).nodeIds = G.nodeIds := rfl

theorem nodeIds_toggle (G : GraphState) :
    (toggleGraphType G).nodeIds = G.nodeIds := by
  unfold toggleGraphType
  split <;> rfl

theorem nodeIds_removeNode (G : GraphState) (n : Ident) :
    ∀ i ∈ (G.removeNode n).nodeIds, i ∈ G.nodeIds := by
  intro i hi
  simp only [GraphState.removeNode, GraphState.nodeIds, List.mem_map] at hi ⊢
  rcases hi with ⟨nd, hnd, rfl⟩
  exact ⟨nd, List.mem_of_mem_filter hnd, rfl⟩

theorem nodeIds_ensureNode (G : GraphState) (u : Ident) :
    ∀ i ∈ (G.ensureNode u).nodeIds, i ∈ G.nodeIds ∨ i = u := by
  intro i hi
  unfold GraphState.ensureNode at hi
  split at hi
  · exact Or.inl hi
  · simp only [GraphState.nodeIds, List.map_append, List.mem_append] at hi
    rcases hi with h | h
    · exact Or.inl h
    · simp only [List.map_cons, List.map_nil, List.mem_singleton] at h
      exact Or.inr h

theorem nodeIds_addEdgeNoAttr (G : GraphState) (u v : Ident) :
    ∀ i ∈ (G.addEdgeNoAttr u v).nodeIds, i ∈ G.nodeIds ∨ i = u ∨ i = v := by
  intro i hi
  unfold GraphState.addEdgeNoAttr at hi
  have hi' : i ∈ ((G.ensureNode u).ensureNode v).nodeIds := by
    dsimp only at hi
    split at hi
    · exact hi
    · exact hi
  rcases nodeIds_ensureNode _ v i hi' with h | h
  · rcases nodeIds_ensureNode _ u i h with h2 | h2
    · exact Or.inl h2
    · exact Or.inr (Or.inl h2)
  · exact Or.inr (Or.inr h)

theorem nodeIds_addNodeWithPos (G : GraphState) (n : Ident) (p : Pos) :
    ∀ i ∈ (G.addNodeWithPos n p).nodeIds, i ∈ G.nodeIds ∨ i = n := by
  intro i hi
  unfold GraphState.addNodeWithPos at hi
  split at hi
  · simp only [GraphState.nodeIds] at hi
    rw [map_fst_of_update _ (fun nd => by by_cases h : nd.1 = n <;> simp [h])] at hi
    exact Or.inl hi
  · simp only [GraphState.nodeIds, List.map_append, List.mem_append, List.map_cons,
      List.map_nil, List.mem_singleton] at hi
    rcases hi with h | h
    · exact Or.inl h
    · exact Or.inr h

theorem scanHover_mem (st : Bool) (m : Pos) :
    ∀ (l : List (Ident × NodeData)) (i : Ident),
      scanHover st m l = some (some i) → i ∈ l.map (·.1) := by
  intro l
  induction l with
  | nil => intro i h; exact absurd h (by simp [scanHover])
  | cons hd tl ih =>
    intro i h
    cases hpos : hd.2.pos with
    | none => simp [scanHover, hpos] at h
    | some q =>
      simp only [scanHover, hpos] at h
      by_cases hhit : st && inNodeBox q m
      · simp only [hhit, if_true] at h
        simp only [Option.some.injEq] at h
        subst h
        exact List.mem_cons_self _ _
      · simp only [hhit, if_false] at h
        exact List.mem_cons_of_mem _ (ih i h)

theorem scanHoverLastPos_mem (m : Pos) :
    ∀ (l : List (Ident × NodeData)) (lp : Option Pos) (i : Ident) (lp' : Option Pos),
      scanHoverLastPos m lp l = some (some i, lp') → i ∈ l.map (·.1) := by
  intro l
  induction l with
  | nil =>
    intro lp i lp' h
    simp only [scanHoverLastPos, Option.some.injEq, Prod.mk.injEq] at h
    exact absurd h.1 (by simp)
  | cons hd tl ih =>
    intro lp i lp' h
    cases hpos : hd.2.pos with
    | none => simp [scanHoverLastPos, hpos] at h
    | some q =>
      simp only [scanHoverLastPos, hpos] at h
      by_cases hhit : inNodeBox q m
      · simp only [hhit, if_true, Option.some.injEq, Prod.mk.injEq] at h
        rcases h with ⟨h1, _⟩
        subst h1
        exact List.mem_cons_self _ _
      · simp only [hhit, if_false] at h
        exact List.mem_cons_of_mem _ (ih (some q) i lp' h)

theorem delete_edge_nodes (G : GraphState) (m : Pos) (G' : GraphState)
    (h : delete_edge G m = some G') : G'.nodes = G.nodes := by
  unfold delete_edge at h
  rcases hfe : firstEdgeHit G m G.edges with _ | oe
  · rw [hfe] at h; cases h
  · rw [hfe] at h
    cases oe with
    | none => simp only [Option.some.injEq] at h; subst h; rfl
    | some e =>
      simp only [Option.some.injEq] at h
      subst h
      rfl

theorem popup_handleEvent_nodeIds (p : Popup) (e : Event) (G : GraphState) :
    ((p.handleEvent e G).2.2).nodeIds = G.nodeIds := by
  unfold Popup.handleEvent
  rcases e with _ | _ | _ | ⟨k, u⟩
  · rfl
  · rfl
  · rfl
  · cases k with
    | kReturn =>
      dsimp only
      split
      · split
        · split
          · split
            · simp [nodeIds_setWeight]
            · rfl
          · simp [nodeIds_setLabel]
        · rfl
      · rfl
    | kBackspace => rfl
    | kE => rfl
    | kOther => rfl

theorem sp_of_subset {s s' : AppState} (h : CtrInv s)
    (hids : ∀ i ∈ s'.G.nodeIds, i ∈ s.G.nodeIds)
    (hctr : s'.node_id = s.node_id)
    (hpend : s'.edge_start_node = s.edge_start_node ∨ s'.edge_start_node = none ∨
      (∃ n, s'.edge_start_node = some n ∧ n ∈ s.G.nodeIds)) :
    StepPreserves s s' := by
  refine ⟨⟨?_, ?_⟩, le_of_eq hctr.symm, fun i hi => Or.inl (hids i hi)⟩
  · intro i hi
    rw [hctr]
    exact h.1 i (hids i hi)
  · intro i hi
    rw [hctr]
    rcases hpend with hp | hp | ⟨n, hp, hn⟩
    · exact h.2 i (hp ▸ hi)
    · rw [hp] at hi; cases hi
    · rw [hp] at hi
      have h2 := Option.some.inj hi
      subst h2
      exact h.1 _ hn

theorem sp_of_eqIds {s s' : AppState} (h : CtrInv s)
    (hids : s'.G.nodeIds = s.G.nodeIds)
    (hctr : s'.node_id = s.node_id)
    (hpend : s'.edge_start_node = s.edge_start_node ∨ s'.edge_start_node = none ∨
      (∃ n, s'.edge_start_node = some n ∧ n ∈ s.G.nodeIds)) :
    StepPreserves s s' :=
  sp_of_subset h (fun i hi => hids ▸ hi) hctr hpend

theorem sp_add_node {s : AppState} (h : CtrInv s) (m : Pos) :
    StepPreserves s (add_node s m) := by
  unfold add_node
  refine ⟨⟨?_, ?_⟩, by simp, ?_⟩
  · intro i hi
    rcases nodeIds_addNodeWithPos _ _ _ i hi with hold | hfresh
    · exact idLe_mono (h.1 i hold) (Nat.le_succ _)
    · subst hfresh
      simp [idLe]
  · intro i hi
    exact idLe_mono (h.2 i hi) (Nat.le_succ _)
  · intro i hi
    rcases nodeIds_addNodeWithPos _ _ _ i hi with hold | hfresh
    · exact Or.inl hold
    · exact Or.inr (Or.inl hfresh)

theorem sp_complete_link {s : AppState} (h : CtrInv s) {pnd n : Ident}
    (hpend : s.edge_start_node = some pnd) (hn : n ∈ s.G.nodeIds) :
    StepPreserves s { s with G := s.G.addEdgeNoAttr pnd n, edge_start_node := none } := by
  refine ⟨⟨?_, ?_⟩, le_refl _, ?_⟩
  · intro i hi
    rcases nodeIds_addEdgeNoAttr _ _ _ i hi with hold | hp | hv
    · exact h.1 i hold
    · subst hp
      exact h.2 i hpend
    · subst hv
      exact h.1 i hn
  · intro i hi
    cases hi
  · intro i hi
    rcases nodeIds_addEdgeNoAttr _ _ _ i hi with hold | hp | hv
    · exact Or.inl hold
    · subst hp
      exact Or.inr (Or.inr hpend)
    · subst hv
      exact Or.inl hn

theorem hgi_preserves (s : AppState) (b : Nat) (m : Pos) (s' : AppState)
    (h : handle_graph_interaction s b m = some s') (hinv : CtrInv s) :
    StepPreserves s s' := by
  unfold handle_graph_interaction at h
  rcases hscan : scanHover (b = 1 || b = 2 || b = 3) m s.G.nodes with _ | ohit
  · rw [hscan] at h; cases h
  · rw [hscan] at h
    cases ohit with
    | some n =>
      have hn : n ∈ s.G.nodeIds := scanHover_mem _ _ _ _ hscan
      dsimp only at h
      by_cases hb1 : b = 1
      · rw [if_pos hb1] at h
        cases h
        exact sp_of_eqIds hinv rfl rfl (Or.inr (Or.inl rfl))
      · rw [if_neg hb1] at h
        by_cases hb3 : b = 3
        · rw [if_pos hb3] at h
          rcases hpend : s.edge_start_node with _ | pnd
          · rw [hpend] at h
            dsimp only at h
            cases h
            exact sp_of_eqIds hinv rfl rfl (Or.inr (Or.inr ⟨n, rfl, hn⟩))
          · rw [hpend] at h
            dsimp only at h
            by_cases hne : pnd ≠ n
            · rw [if_pos hne] at h
              cases h
              exact sp_complete_link hinv hpend hn
            · rw [if_neg hne] at h
              cases h
              exact sp_of_eqIds hinv rfl rfl (Or.inr (Or.inl rfl))
        · rw [if_neg hb3] at h
          cases h
          exact sp_of_subset hinv (nodeIds_removeNode _ _) rfl (Or.inl rfl)
    | none =>
      dsimp only at h
      by_cases hb1 : b = 1
      · rw [if_pos hb1] at h
        cases h
        exact sp_add_node hinv m
      · rw [if_neg hb1] at h
        by_cases hb2 : b = 2
        · rw [if_pos hb2] at h
          rcases hde : delete_edge s.G m with _ | G2
          · rw [hde] at h; cases h
          · rw [hde] at h
            simp only [Option.map_some', Option.some.injEq] at h
            cases h
            have hnodes := delete_edge_nodes _ _ _ hde
            exact sp_of_eqIds hinv (by simp [GraphState.nodeIds, hnodes]) rfl (Or.inl rfl)
        · rw [if_neg hb2] at h
          cases h
          exact sp_of_eqIds hinv rfl rfl (Or.inl rfl)

theorem hmd_preserves (s : AppState) (b : Nat) (m : Pos) (s' : AppState)
    (h : handle_mouse_down s b m = some s') (hinv : CtrInv s) :
    StepPreserves s s' := by
  unfold handle_mouse_down at h
  by_cases hsave : saveRect.collide m
  · rw [if_pos hsave] at h
    cases h
    exact sp_of_eqIds hinv rfl rfl (Or.inl rfl)
  · rw [if_neg hsave] at h
    by_cases hdir : dirRect.collide m
    · rw [if_pos hdir] at h
      cases h
      exact sp_of_eqIds hinv (nodeIds_toggle _) rfl (Or.inl rfl)
    · rw [if_neg hdir] at h
      exact hgi_preserves _ _ _ _ h hinv

theorem hku_preserves (env : Env) (s : AppState) (k : KeyCode) (m : Pos) (s' : AppState)
    (h : handle_key_up env s k m = some s') (hinv : CtrInv s) :
    StepPreserves s s' := by
  unfold handle_key_up at h
  by_cases hk : k = KeyCode.kE
  · rw [if_pos hk] at h
    rcases hscan : scanHover true m s.G.nodes with _ | ohit
    · rw [hscan] at h; cases h
    · rw [hscan] at h
      cases ohit with
      | some n =>
        dsimp only at h
        cases h
        exact sp_of_eqIds hinv rfl rfl (Or.inl rfl)
      | none =>
        dsimp only at h
        rcases hfe : firstEdgeHit s.G m s.G.edges with _ | oe
        · rw [hfe] at h; cases h
        · rw [hfe] at h
          cases oe with
          | some e =>
            dsimp only at h
            cases h
            exact sp_of_eqIds hinv rfl rfl (Or.inl rfl)
          | none =>
            dsimp only at h
            cases h
            exact sp_of_eqIds hinv rfl rfl (Or.inl rfl)
  · rw [if_neg hk] at h
    by_cases hkb : k = KeyCode.kBackspace
    · rw [if_pos hkb] at h
      rcases hscan : scanHoverLastPos m none s.G.nodes with _ | pr
      · rw [hscan] at h; cases h
      · rw [hscan] at h
        rcases pr with ⟨oi, olp⟩
        cases oi with
        | some n =>
          dsimp only at h
          cases h
          exact sp_of_subset hinv (nodeIds_removeNode _ _) rfl (Or.inl rfl)
        | none =>
          cases olp with
          | some lp =>
            dsimp only at h
            rcases hde : delete_edge s.G lp with _ | G2
            · rw [hde] at h; cases h
            · rw [hde] at h
              simp only [Option.map_some', Option.some.injEq] at h
              cases h
              have hnodes := delete_edge_nodes _ _ _ hde
              exact sp_of_eqIds hinv (by simp [GraphState.nodeIds, hnodes]) rfl (Or.inl rfl)
          | none =>
            dsimp only at h
            cases h
    · rw [if_neg hkb] at h
      cases h
      exact sp_of_eqIds hinv rfl rfl (Or.inl rfl)

/-- C6 (amended): one processed event preserves the counter invariant,
never decreases the counter, only introduces node ids that were already
present, are the fresh id `counter + 1`, or are the stored pending-link
endpoint — and the fresh id is distinct from every present id.  (The
claim's original absolute statement fails: the pending-endpoint clause
is the leak that re-introduces a removed id, see the counterexample.) -/
theorem C6_amended_counter_monotone_and_provenance :
    ∀ (env : Env) (mouse : Pos) (s : AppState) (e : Event) (s' : AppState),
      handleEvent env mouse s e = some s' → CtrInv s →
      (CtrInv s' ∧ s.node_id ≤ s'.node_id ∧
        ∀ i ∈ s'.G.nodeIds, i ∈ s.G.nodeIds ∨
          i = Ident.num ((s.node_id + 1 : ℕ) : ℚ) ∨ s.edge_start_node = some i) ∧
      Ident.num ((s.node_id + 1 : ℕ) : ℚ) ∉ s.G.nodeIds := by
  intro env mouse s e s' h hinv
  refine ⟨?_, fresh_not_mem s hinv⟩
  unfold handleEvent at h
  rcases hpop : s.popup with _ | p
  · rw [hpop] at h
    cases e with
    | mouseDown b pos => exact hmd_preserves _ _ _ _ h hinv
    | mouseUp b pos =>
      have h2 := Option.some.inj h
      subst h2
      unfold handle_mouse_up
      by_cases hb : b = 1
      · rw [if_pos hb]
        exact sp_of_eqIds hinv rfl rfl (Or.inl rfl)
      · rw [if_neg hb]
        exact sp_of_eqIds hinv rfl rfl (Or.inl rfl)
    | mouseMotion pos =>
      unfold handle_mouse_motion at h
      rcases hdrag : s.dragging with _ | n
      · rw [hdrag] at h
        have h2 := Option.some.inj h
        subst h2
        exact sp_of_eqIds hinv rfl rfl (Or.inl rfl)
      · rw [hdrag] at h
        dsimp only at h
        by_cases hhas : s.G.hasNode n
        · rw [if_pos hhas] at h
          cases h
          exact sp_of_eqIds hinv (nodeIds_setPos _ _ _) rfl (Or.inl rfl)
        · rw [if_neg hhas] at h
          cases h
    | keyUp k u => exact hku_preserves _ _ _ _ _ h hinv
  · rw [hpop] at h
    dsimp only at h
    by_cases hc : p.collidepoint mouse
    · rw [if_pos hc] at h
      have hids := popup_handleEvent_nodeIds p e s.G
      by_cases hstay : (p.handleEvent e s.G).1
      · rw [if_pos hstay] at h
        cases h
        exact sp_of_eqIds hinv hids rfl (Or.inl rfl)
      · rw [if_neg hstay] at h
        cases h
        exact sp_of_eqIds hinv hids rfl (Or.inl rfl)
    · rw [if_neg hc] at h
      cases e with
      | mouseMotion q =>
        dsimp only at h
        have h2 := Option.some.inj h
        subst h2
        exact sp_of_eqIds hinv rfl rfl (Or.inl rfl)
      | mouseDown b pos =>
        dsimp only at h
        cases h
        exact sp_of_eqIds hinv rfl rfl (Or.inl rfl)
      | mouseUp b pos =>
        dsimp only at h
        cases h
        exact sp_of_eqIds hinv rfl rfl (Or.inl rfl)
      | keyUp k u =>
        dsimp only at h
        cases h
        exact sp_of_eqIds hinv rfl rfl (Or.inl rfl)

/-- Witness for `C6_amended_counter_monotone_and_provenance`: a
secondary press on node 1 of the two-node fixture. -/
theorem C6_amended_provenance_witness :
    CtrInv stTwoNodesEdge ∧
    ((CtrInv { stTwoNodesEdge with edge_start_node := some (.num 1) } ∧
      stTwoNodesEdge.node_id ≤
        ({ stTwoNodesEdge with edge_start_node := some (.num 1) } : AppState).node_id ∧
      ∀ i ∈ ({ stTwoNodesEdge with edge_start_node := some (.num 1) } : AppState).G.nodeIds,
        i ∈ stTwoNodesEdge.G.nodeIds ∨
          i = Ident.num ((stTwoNodesEdge.node_id + 1 : ℕ) : ℚ) ∨
          stTwoNodesEdge.edge_start_node = some i) ∧
      Ident.num ((stTwoNodesEdge.node_id + 1 : ℕ) : ℚ) ∉ stTwoNodesEdge.G.nodeIds) := by
  have hinv : CtrInv stTwoNodesEdge := by
    constructor
    · intro i hi
      simp only [stTwoNodesEdge, GraphState.nodeIds, List.map_cons, List.map_nil,
        List.mem_cons, List.not_mem_nil, or_false, List.mem_singleton] at hi
      rcases hi with rfl | rfl
      · show (1 : ℚ) ≤ ((2 : ℕ) : ℚ)
        norm_num
      · show (2 : ℚ) ≤ ((2 : ℕ) : ℚ)
        norm_num
    · intro i hi
      simp [stTwoNodesEdge] at hi
  exact ⟨hinv,
    C6_amended_counter_monotone_and_provenance envFixed (100, 100) stTwoNodesEdge
      (.mouseDown 3 (100, 100)) _ (by decide) hinv⟩

end GraphEditor
